import Mathlib

/-!
Verification of the `biorbd` python model-creation module.

This file contains a shallow embedding of the relevant parts of
`binding/python3/model_creation.py` (classes `Marker`, `Axis`, `RT`,
`Segment`, `KinematicChain`, `DeLeva`, the generic counterparts and
`KinematicModelGeneric.generate_personalized`) and of the duplicate
`SegmentCoordinateSystemReal` class, together with theorems settling the
specification claims about those functions.

Numpy float arrays are modelled as real-valued vectors and matrices;
NaN entries (absent motion-capture samples) are modelled with `Option ℝ`
(`none` = NaN), mirroring exactly where numpy propagates NaN.  Python
exceptions are modelled with `Except`.
-/

namespace Biorbd

open Matrix

noncomputable section

/-- 3-component real vector (a numpy 3-vector). -/
abbrev V3 := Fin 3 → ℝ

/-- 4x4 real matrix (a numpy homogeneous-transform array). -/
abbrev M4 := Matrix (Fin 4) (Fin 4) ℝ

/-- Componentwise dot product of two 3-vectors (`np.dot`). -/
def dot3 (a b : V3) : ℝ := a 0 * b 0 + a 1 * b 1 + a 2 * b 2

/-- Cross product of two 3-vectors (`np.cross`). -/
def cross3 (a b : V3) : V3 :=
  ![a 1 * b 2 - a 2 * b 1, a 2 * b 0 - a 0 * b 2, a 0 * b 1 - a 1 * b 0]

/-- Euclidean norm (`np.linalg.norm`). -/
def norm3 (v : V3) : ℝ := Real.sqrt (dot3 v v)

/-- `vector / np.linalg.norm(vector)`, the normalization used in
`RT.from_markers` (line 222-224 of model_creation.py). -/
def normalize3 (v : V3) : V3 := fun i => v i / norm3 v

/-- The `Axis.Name` enum (X = 0, Y = 1, Z = 2). -/
inductive AxName where
  | X | Y | Z
deriving DecidableEq

/-- `name.value` used as a column index of the 4x4 matrix. -/
def AxName.slot : AxName → Fin 4
  | .X => 0
  | .Y => 1
  | .Z => 2

/-- Cyclic successor X → Y → Z → X, used to state right-handedness. -/
def AxName.cyc : AxName → AxName
  | .X => .Y
  | .Y => .Z
  | .Z => .X

/-- The concrete `Marker` class (name, parent, 3d position, flags). -/
structure Marker where
  name : String
  parent_name : String
  position : V3
  is_technical : Bool
  is_anatomical : Bool

/-- The concrete `Axis` class: a named axis between two markers. -/
structure Axis where
  name : AxName
  start_point : Marker
  end_point : Marker

/-- `Axis.axis()`: the vector `end - start`. -/
def Axis.axis (a : Axis) : V3 :=
  fun i => a.end_point.position i - a.start_point.position i

/-- The `RT` class (`SegmentCoordinateSystemReal` in the duplicate file):
a 4x4 matrix, an optional parent RT and the `is_rt_local` flag. -/
inductive RT where
  | mk (rt : M4) (parent_rt : Option RT) (is_rt_local : Bool)

/-- The `rt` (4x4 matrix) field. -/
def RT.rt : RT → M4
  | .mk m _ _ => m

/-- The `parent_rt` field. -/
def RT.parent_rt : RT → Option RT
  | .mk _ p _ => p

/-- The `is_rt_local` field. -/
def RT.is_rt_local : RT → Bool
  | .mk _ _ b => b

/-- The matrix computed by the `RT.transpose` property (lines 284-290):
transpose the 4x4 array, replace the translation column by
`-R^T @ t` (the three-term sums below are the rows of that product) and
zero the first three entries of the bottom row. -/
def transposeM (M : M4) : M4 := fun i j =>
  if i = 3 then (if j = 3 then M 3 3 else 0)
  else if j = 3 then -(M 0 i * M 0 3 + M 1 i * M 1 3 + M 2 i * M 2 3)
  else M j i

/-- `RT.copy` (line 262-263): keeps the matrix and the parent reference,
and lets `is_rt_local` take its constructor default `False`. -/
def RT.copy (r : RT) : RT := .mk r.rt r.parent_rt false

/-- `RT.transpose` (lines 284-290): `copy` then overwrite the matrix. -/
def RT.transpose (r : RT) : RT := .mk (transposeM r.rt) r.parent_rt false

/-- The matrix that `RT.__str__` (lines 265-269) decomposes into Euler
angles and translation before formatting:
`self.rt` when local, otherwise
`self.parent_rt.transpose @ self.rt if self.parent_rt else np.identity(4)`. -/
def RT.renderMatrix (r : RT) : M4 :=
  if r.is_rt_local then r.rt
  else
    match r.parent_rt with
    | some p => transposeM p.rt * r.rt
    | none => 1

/-- Errors raised by the embedded functions (python `ValueError` /
`RuntimeError` with the corresponding messages). -/
inductive MErr where
  | sameAxis
  | badKeep
  | unknownLabel (label : String)
  | missingMarkers (names : List String)
  | unknownParent (name : String)
deriving DecidableEq

/-- The axis reordering of `RT.from_markers` (lines 194-207): pick the
third axis name and swap `first`/`second` when the supplied pair is not
in right-handed cyclic order. -/
def reorderAxes (fa sa : Axis) : Axis × Axis × AxName :=
  match fa.name with
  | .X => if sa.name = .Z then (sa, fa, .Y) else (fa, sa, .Z)
  | .Y => if sa.name = .X then (sa, fa, .Z) else (fa, sa, .X)
  | .Z => if sa.name = .Y then (sa, fa, .X) else (fa, sa, .Y)

/-- Row `i < 3` takes the 3-vector entry, row 3 takes `w`: used to build
the columns of the dispatched 4x4 matrix (`rt[:3, col] = ...`). -/
def toV4 (v : V3) (w : ℝ) : Fin 4 → ℝ :=
  fun i => if h : (i : ℕ) < 3 then v ⟨i, h⟩ else w

/-- The matrix dispatch of `RT.from_markers` (lines 221-226): start from
zeros, write the three columns at the slots given by the axis names,
write the origin in column 3 and a 1 at (3,3). -/
def dispatchM (n1 n2 n3 : AxName) (c1 c2 c3 : V3) (o : V3) : M4 := fun i j =>
  (if j = (3 : Fin 4) then toV4 o 1
   else if j = n1.slot then toV4 c1 0
   else if j = n2.slot then toV4 c2 0
   else toV4 c3 0) i

/-- Lines 209-228 of `RT.from_markers`, after the reordering: compute
the third axis as a cross product, recompute the non-kept axis (fail
when `axis_to_keep` names neither supplied axis), normalize and
dispatch.  The result carries the constructor defaults
`is_rt_local = False` and the given parent. -/
def buildFrom (origin : Marker) (f s : Axis) (tn : AxName) (keep : AxName)
    (parent_rt : Option RT) : Except MErr RT :=
  let v1 := f.axis
  let v2 := s.axis
  let v3 := cross3 v1 v2
  if keep = f.name then
    .ok (.mk (dispatchM f.name s.name tn (normalize3 v1)
      (normalize3 (cross3 v3 v1)) (normalize3 v3) origin.position)
      parent_rt false)
  else if keep = s.name then
    .ok (.mk (dispatchM f.name s.name tn (normalize3 (cross3 v2 v3))
      (normalize3 v2) (normalize3 v3) origin.position)
      parent_rt false)
  else .error .badKeep

/-- `RT.from_markers` (lines 174-228): validate the axis names, reorder,
then build the frame. -/
def RT.from_markers (origin : Marker) (fa sa : Axis) (keep : AxName)
    (parent_rt : Option RT) : Except MErr RT :=
  if fa.name = sa.name then .error .sameAxis
  else
    let r := reorderAxes fa sa
    buildFrom origin r.1 r.2.1 r.2.2 keep parent_rt

/-- Column `j` of a 4x4 matrix, restricted to the first three rows. -/
def colOf (M : M4) (j : Fin 4) : V3 := ![M 0 j, M 1 j, M 2 j]

/-- The top-left 3x3 rotation block of a 4x4 matrix. -/
def rotBlock (M : M4) : Matrix (Fin 3) (Fin 3) ℝ :=
  !![M 0 0, M 0 1, M 0 2; M 1 0, M 1 1, M 1 2; M 2 0, M 2 1, M 2 2]

/-- The translation column of a 4x4 matrix. -/
def transBlock (M : M4) : Fin 3 → ℝ := ![M 0 3, M 1 3, M 2 3]

/-! ## The motion-capture trial (ezc3d data) and marker binding -/

/-- The c3d trial as consumed by `Marker.from_data`: the ordered point
label list, the units list and, for each marker index, the list of
per-frame homogeneous samples.  A `none` component is a NaN sample. -/
structure C3DData where
  labels : List String
  units : List String
  points : Nat → List (Fin 4 → Option ℝ)

/-- `np.nanmean` over the frame axis: the mean of the non-NaN samples,
NaN (`none`) when every sample is NaN. -/
def nanmean (l : List (Option ℝ)) : Option ℝ :=
  let vals := l.filterMap id
  if vals.length = 0 then none else some (vals.sum / vals.length)

/-- `np.mean` over the marker axis: NaN when the list is empty or any
entry is NaN, otherwise the arithmetic mean. -/
def npMean (l : List (Option ℝ)) : Option ℝ :=
  if l.length = 0 then none
  else if l.any (fun x => x.isNone) then none
  else some ((l.filterMap id).sum / l.length)

/-- `indices_in_c3d` (lines 74-75): position of each requested name in
the label list, left to right; python `list.index` raises at the first
absent name. -/
def indicesInC3d (c3d : C3DData) : List String → Except MErr (List Nat)
  | [] => .ok []
  | n :: rest =>
    match c3d.labels.findIdx? (fun l => l = n) with
    | some i => (indicesInC3d c3d rest).map (fun l => i :: l)
    | none => .error (.unknownLabel n)

/-- The unit scale factor of `to_meter` (lines 77-79):
1000 when the first unit string is "mm", else 1. -/
def meterFactor (c3d : C3DData) : ℝ :=
  match c3d.units with
  | u :: _ => if u = "mm" then 1000 else 1
  | [] => 1

/-- The homogeneous mean position of `Marker.from_data` before the NaN
check (lines 86 and 77-83): per coordinate, `np.nanmean` over the frame
axis, `np.mean` over the requested markers, division by the unit factor,
and the homogeneous component forced to 1. -/
def meteredOf (c3d : C3DData) (index : List Nat) : Fin 4 → Option ℝ :=
  fun i =>
    if i = 3 then some 1
    else (npMean (index.map fun k =>
      nanmean ((c3d.points k).map fun fr => fr i))).map
        (fun x => x / meterFactor c3d)

/-- `Marker.from_data` (lines 46-90): resolve the marker indices, take
the mean over frames (`np.nanmean`) then over the requested markers
(`np.mean`), convert to meters and set the homogeneous component to 1
(`meteredOf`), fail when any component is NaN, then re-express through
the parent's inverse transform (identity when there is no parent). -/
def Marker.from_data (c3d : C3DData) (name : String) (from_markers : List String)
    (parent_name : String) (parent_rt : Option RT)
    (is_technical is_anatomical : Bool) : Except MErr Marker :=
  match indicesInC3d c3d from_markers with
  | .error e => .error e
  | .ok index =>
    if (List.finRange 4).any (fun i => ((meteredOf c3d index) i).isNone) then
      .error (.missingMarkers from_markers)
    else
      .ok ⟨name, parent_name,
        fun i => ((match parent_rt with
          | some p => transposeM p.rt
          | none => 1).mulVec
            (fun j => ((meteredOf c3d index) j).getD 0)) i.castSucc,
        is_technical, is_anatomical⟩

/-! ## Generic (template) entities -/

/-- `MarkerGeneric`: a marker recipe naming trial markers. -/
structure MarkerGeneric where
  name : String
  from_markers : List String
  parent_name : String
  is_technical : Bool
  is_anatomical : Bool

/-- `MarkerGeneric.to_marker` (lines 540-541): delegate to
`Marker.from_data`. -/
def MarkerGeneric.to_marker (g : MarkerGeneric) (c3d : C3DData)
    (parent_rt : Option RT) : Except MErr Marker :=
  Marker.from_data c3d g.name g.from_markers g.parent_name parent_rt
    g.is_technical g.is_anatomical

/-- `AxisGeneric`: an axis recipe between two marker recipes. -/
structure AxisGeneric where
  name : AxName
  start_point : MarkerGeneric
  end_point : MarkerGeneric

/-- `AxisGeneric.to_axis` (lines 558-574): resolve both endpoints. -/
def AxisGeneric.to_axis (g : AxisGeneric) (c3d : C3DData)
    (parent_rt : Option RT) : Except MErr Axis :=
  match g.start_point.to_marker c3d parent_rt with
  | .error e => .error e
  | .ok sp =>
    match g.end_point.to_marker c3d parent_rt with
    | .error e => .error e
    | .ok ep => .ok ⟨g.name, sp, ep⟩

/-- `RTGeneric`: an RT recipe (origin recipe, two axis recipes and the
name of the axis to keep). -/
structure RTGeneric where
  origin : MarkerGeneric
  ax1 : AxisGeneric
  ax2 : AxisGeneric
  keep : AxName

/-- `RTGeneric.to_rt` (lines 590-607): resolve the origin and axes with
no parent transform, then call `RT.from_markers` with the parent RT. -/
def RTGeneric.to_rt (g : RTGeneric) (c3d : C3DData) (parent_rt : Option RT) :
    Except MErr RT :=
  match g.origin.to_marker c3d none with
  | .error e => .error e
  | .ok origin =>
    match g.ax1.to_axis c3d none with
    | .error e => .error e
    | .ok a1 =>
      match g.ax2.to_axis c3d none with
      | .error e => .error e
      | .ok a2 => RT.from_markers origin a1 a2 g.keep parent_rt

/-! ## Concrete segments, the kinematic chain and the assembler -/

/-- The concrete `Segment` class; the inertial fields keep the defaults
`generate_personalized` leaves them at. -/
structure Segment where
  name : String
  parent_name : String
  rt : Option RT
  translations : String
  rotations : String
  mass : ℝ
  center_of_mass : ℝ × ℝ × ℝ
  inertia_xxyyzz : ℝ × ℝ × ℝ
  markers : List Marker

/-- `KinematicChain`: an ordered sequence of segments. -/
structure KinematicChain where
  segments : List Segment

/-- `SegmentGeneric`: the symbolic segment template. -/
structure SegmentGeneric where
  name : String
  parent_name : String
  translations : String
  rotations : String
  markers : List MarkerGeneric
  rt : Option RTGeneric

/-- `KinematicModelGeneric.segments`: insertion-ordered templates. -/
structure KinematicModelGeneric where
  segments : List SegmentGeneric

/-- Parent lookup of `generate_personalized` (line 821): when
`parent_name` is non-empty, find the first already-assembled segment
with that name (`list.index` raises when absent). -/
def resolveParent (acc : List Segment) (parent_name : String) :
    Except MErr (Option Segment) :=
  if parent_name = "" then .ok none
  else
    match acc.find? (fun seg => seg.name = parent_name) with
    | some seg => .ok (some seg)
    | none => .error (.unknownParent parent_name)

/-- The marker loop of `generate_personalized` (lines 836-837): bind
each generic marker of a segment, left to right, against the segment's
freshly resolved RT. -/
def bindMarkers (c3d : C3DData) (rt : Option RT) : List MarkerGeneric →
    Except MErr (List Marker)
  | [] => .ok []
  | m :: rest =>
    match m.to_marker c3d rt with
    | .error e => .error e
    | .ok mk =>
      match bindMarkers c3d rt rest with
      | .error e => .error e
      | .ok l => .ok (mk :: l)

/-- The loop body of `generate_personalized` (lines 818-837): resolve
the parent among the segments assembled so far, bind the RT recipe
(the default `RT()` — identity, no parent, non-local — when there is
none), bind the markers against this segment's RT and append. -/
def generateGo (c3d : C3DData) : List SegmentGeneric → List Segment →
    Except MErr (List Segment)
  | [], acc => .ok acc
  | s :: rest, acc =>
    match resolveParent acc s.parent_name with
    | .error e => .error e
    | .ok parentSeg =>
      match (match s.rt with
             | none => Except.ok (RT.mk 1 none false)
             | some r => r.to_rt c3d (parentSeg.bind (fun seg => seg.rt))) with
      | .error e => .error e
      | .ok rt =>
        match bindMarkers c3d (some rt) s.markers with
        | .error e => .error e
        | .ok mks =>
          generateGo c3d rest (acc ++ [Segment.mk s.name s.parent_name (some rt)
            s.translations s.rotations 0 (0, 0, 0) (0, 0, 0) mks])

/-- `KinematicModelGeneric.generate_personalized` (lines 807-840) up to
the final `model.write(save_path)`: assemble the concrete chain. -/
def generate_personalized (model : KinematicModelGeneric) (c3d : C3DData) :
    Except MErr KinematicChain :=
  (generateGo c3d model.segments []).map KinematicChain.mk

/-- The file-write effect of `generate_personalized` (lines 839-840):
`model.write(save_path)` runs once, after the whole chain is assembled,
so the written files of one call are empty on failure and the single
serialized chain on success. -/
def generateWrites (model : KinematicModelGeneric) (c3d : C3DData)
    (save_path : String) : List (String × KinematicChain) :=
  match generate_personalized model c3d with
  | .ok chain => [(save_path, chain)]
  | .error _ => []

/-! ## The DeLeva anthropometric table -/

/-- Subject sex, the two keys of the DeLeva table. -/
inductive Sex where
  | male | female
deriving DecidableEq

/-- The segment names tabulated by the DeLeva table. -/
inductive DLSeg where
  | HEAD | TRUNK | UPPER_ARM | LOWER_ARM | HAND | THIGH | SHANK | FOOT
deriving DecidableEq

/-- One row of the DeLeva table (`DeLeva.Param`). -/
structure DLParam where
  marker_names : String × String
  mass : ℝ
  center_of_mass : ℝ
  radii : ℝ × ℝ × ℝ

/-- The DeLeva table (lines 396-467), transcribed verbatim. -/
def deLevaTable : Sex → DLSeg → DLParam
  | .male, .HEAD => ⟨("TOP_HEAD", "SHOULDER"), 0.0694, 0.5002, (0.303, 0.315, 0.261)⟩
  | .male, .TRUNK => ⟨("SHOULDER", "PELVIS"), 0.4346, 0.5138, (0.328, 0.306, 0.169)⟩
  | .male, .UPPER_ARM => ⟨("SHOULDER", "ELBOW"), 0.0271 * 2, 0.5772, (0.285, 0.269, 0.158)⟩
  | .male, .LOWER_ARM => ⟨("ELBOW", "WRIST"), 0.0162 * 2, 0.4574, (0.276, 0.265, 0.121)⟩
  | .male, .HAND => ⟨("WRIST", "FINGER"), 0.0061 * 2, 0.7900, (0.628, 0.513, 0.401)⟩
  | .male, .THIGH => ⟨("PELVIS", "KNEE"), 0.1416 * 2, 0.4095, (0.329, 0.329, 0.149)⟩
  | .male, .SHANK => ⟨("KNEE", "ANKLE"), 0.0433 * 2, 0.4459, (0.255, 0.249, 0.103)⟩
  | .male, .FOOT => ⟨("ANKLE", "TOE"), 0.0137 * 2, 0.4415, (0.257, 0.245, 0.124)⟩
  | .female, .HEAD => ⟨("TOP_HEAD", "SHOULDER"), 0.0669, 0.4841, (0.271, 0.295, 0.261)⟩
  | .female, .TRUNK => ⟨("SHOULDER", "PELVIS"), 0.4257, 0.4964, (0.307, 0.292, 0.147)⟩
  | .female, .UPPER_ARM => ⟨("SHOULDER", "ELBOW"), 0.0255 * 2, 0.5754, (0.278, 0.260, 0.148)⟩
  | .female, .LOWER_ARM => ⟨("ELBOW", "WRIST"), 0.0138 * 2, 0.4559, (0.261, 0.257, 0.094)⟩
  | .female, .HAND => ⟨("WRIST", "FINGER"), 0.0056 * 2, 0.7474, (0.531, 0.454, 0.335)⟩
  | .female, .THIGH => ⟨("PELVIS", "KNEE"), 0.1478 * 2, 0.3612, (0.369, 0.364, 0.162)⟩
  | .female, .SHANK => ⟨("KNEE", "ANKLE"), 0.0481 * 2, 0.4416, (0.271, 0.267, 0.093)⟩
  | .female, .FOOT => ⟨("ANKLE", "TOE"), 0.0129 * 2, 0.4014, (0.299, 0.279, 0.124)⟩

/-- The `DeLeva` helper state: the subject's sex and total mass, and the
rest-pose marker data of the external biorbd model (`self.marker_names`
and `model.markers(q_zero)`; the dynamics engine itself is an external
collaborator, only its marker name/position interface is modelled). -/
structure DeLeva where
  sex : Sex
  mass : ℝ
  marker_names : List String
  marker_positions : List V3

/-- `DeLeva.segment_mass` (lines 469-470). -/
def DeLeva.segment_mass (d : DeLeva) (seg : DLSeg) : ℝ :=
  (deLevaTable d.sex seg).mass * d.mass

/-- Rest-pose position of a named marker: `self.marker_names.index(n)`
followed by a column read (python raises when the name is absent). -/
def DeLeva.markerPosition (d : DeLeva) (n : String) : Option V3 :=
  (d.marker_names.findIdx? (fun m => m = n)).bind fun i => d.marker_positions.get? i

/-- `DeLeva.segment_length` (lines 472-483): the Euclidean distance
between the rest-pose proximal and distal marker positions. -/
def DeLeva.segment_length (d : DeLeva) (seg : DLSeg) : Option ℝ :=
  let t := deLevaTable d.sex seg
  match d.markerPosition t.marker_names.1, d.markerPosition t.marker_names.2 with
  | some p, some q => some (norm3 (fun i => q i - p i))
  | _, _ => none

/-- `DeLeva.segment_moment_of_inertia` (lines 508-513):
`(mass*(length*r1)^2, mass*(length*r2)^2, mass*(length*r3)^2)`. -/
def DeLeva.segment_moment_of_inertia (d : DeLeva) (seg : DLSeg) :
    Option (ℝ × ℝ × ℝ) :=
  (d.segment_length seg).map fun length =>
    let mass := d.segment_mass seg
    let radii := (deLevaTable d.sex seg).radii
    (mass * (length * radii.1) ^ 2, mass * (length * radii.2.1) ^ 2,
      mass * (length * radii.2.2) ^ 2)

/-- Every non-empty `parent_name` in the list names an earlier-declared
segment (the names in `prior` or a segment appearing before it). -/
def ParentsOk : List String → List SegmentGeneric → Prop
  | _, [] => True
  | prior, s :: rest =>
    (s.parent_name = "" ∨ s.parent_name ∈ prior) ∧ ParentsOk (prior ++ [s.name]) rest

/-- Every frame recipe and marker recipe of the listed segments binds
successfully against the trial (parent-independent: the error branches
of binding never inspect the parent transform). -/
def BindsOk (c3d : C3DData) : List SegmentGeneric → Prop
  | [] => True
  | s :: rest =>
    (match s.rt with
     | none => True
     | some r => ∃ rt, r.to_rt c3d none = .ok rt) ∧
    (∀ m ∈ s.markers, ∃ mk, m.to_marker c3d none = .ok mk) ∧
    BindsOk c3d rest

/-! ## Small helpers and concrete fixtures used by witnesses -/

/-- Whether an embedded python call returned normally. -/
def exceptOk {A : Type} : Except MErr A → Bool
  | .ok _ => true
  | .error _ => false

/-- A concrete marker fixture. -/
def wMarker (nm : String) (p : V3) : Marker := Marker.mk nm "" p true false

/-- A concrete X axis fixture from (0,0,0) to (1,0,0). -/
def wAxisX : Axis := Axis.mk AxName.X (wMarker "A" ![0, 0, 0]) (wMarker "B" ![1, 0, 0])

/-- A concrete Y axis fixture from (0,0,0) to (0,1,0). -/
def wAxisY : Axis := Axis.mk AxName.Y (wMarker "A" ![0, 0, 0]) (wMarker "C" ![0, 1, 0])

/-- A Y-named axis fixture that is collinear with `wAxisX`. -/
def wAxisYdeg : Axis := Axis.mk AxName.Y (wMarker "A" ![0, 0, 0]) (wMarker "B" ![1, 0, 0])

/-- A concrete origin fixture at (1,2,3). -/
def wOrigin : Marker := wMarker "O" ![1, 2, 3]

/-- A one-label, one-frame millimeter trial fixture. -/
def wC3D : C3DData :=
  ⟨["M1"], ["mm"], fun _ => [fun i => some (![1000, 2000, 3000, 1] i)]⟩

/-- A generic marker fixture reading label M1. -/
def wMG : MarkerGeneric := ⟨"G", ["M1"], "SEG", true, false⟩

/-- A trial whose only label M1 is NaN on every frame. -/
def wBadC3D : C3DData := ⟨["M1"], [], fun _ => [fun _ => none]⟩

/-- A root segment carrying the M1 marker recipe. -/
def wSeg1 : SegmentGeneric := ⟨"S1", "", "xyz", "xyz", [wMG], none⟩

/-- A child segment of S1 with no recipes. -/
def wSeg2 : SegmentGeneric := ⟨"S2", "S1", "", "", [], none⟩

/-- A well-parented two-segment generic model. -/
def wModel : KinematicModelGeneric := ⟨[wSeg1, wSeg2]⟩

/-- A one-segment model with no parent issue but a marker recipe that is
NaN on every frame of `wBadC3D`. -/
def wModelBad : KinematicModelGeneric := ⟨[wSeg1]⟩

/-- A DeLeva fixture: male, 70 kg, head markers 5 units apart. -/
def wDeLeva : DeLeva :=
  ⟨Sex.male, 70, ["TOP_HEAD", "SHOULDER"], [![0, 0, 0], ![3, 4, 0]]⟩

/-! ## Theorems -/

/-! ### Vector algebra helper lemmas -/

/-- Projection of the `rt` field over the constructor. -/
@[simp] theorem RT.rt_mk (m : M4) (p : Option RT) (b : Bool) :
    (RT.mk m p b).rt = m := rfl

/-- Projection of the `parent_rt` field over the constructor. -/
@[simp] theorem RT.parent_rt_mk (m : M4) (p : Option RT) (b : Bool) :
    (RT.mk m p b).parent_rt = p := rfl

/-- Projection of the `is_rt_local` field over the constructor. -/
@[simp] theorem RT.is_rt_local_mk (m : M4) (p : Option RT) (b : Bool) :
    (RT.mk m p b).is_rt_local = b := rfl


theorem dot3_comm (a b : V3) : dot3 a b = dot3 b a := by
  unfold dot3; ring

theorem dot3_self_nonneg (v : V3) : 0 ≤ dot3 v v := by
  unfold dot3
  nlinarith [mul_self_nonneg (v 0), mul_self_nonneg (v 1), mul_self_nonneg (v 2)]

theorem dot3_self_pos (v : V3) (hv : v ≠ 0) : 0 < dot3 v v := by
  rcases (dot3_self_nonneg v).lt_or_eq with h | h
  · exact h
  · exfalso
    apply hv
    have e : v 0 * v 0 + v 1 * v 1 + v 2 * v 2 = 0 := by
      have := h.symm
      unfold dot3 at this
      linarith
    have e0 : v 0 = 0 := by
      have h0 : v 0 * v 0 = 0 :=
        le_antisymm (by nlinarith [mul_self_nonneg (v 1), mul_self_nonneg (v 2)])
          (mul_self_nonneg _)
      exact mul_self_eq_zero.mp h0
    have e1 : v 1 = 0 := by
      have h0 : v 1 * v 1 = 0 :=
        le_antisymm (by nlinarith [mul_self_nonneg (v 0), mul_self_nonneg (v 2)])
          (mul_self_nonneg _)
      exact mul_self_eq_zero.mp h0
    have e2 : v 2 = 0 := by
      have h0 : v 2 * v 2 = 0 :=
        le_antisymm (by nlinarith [mul_self_nonneg (v 0), mul_self_nonneg (v 1)])
          (mul_self_nonneg _)
      exact mul_self_eq_zero.mp h0
    funext i
    fin_cases i <;> simp [e0, e1, e2]

theorem ne_zero_of_dot3_pos (v : V3) (h : 0 < dot3 v v) : v ≠ 0 := by
  intro hv
  rw [hv] at h
  simp [dot3] at h

theorem norm3_pos (v : V3) (hv : v ≠ 0) : 0 < norm3 v :=
  Real.sqrt_pos.mpr (dot3_self_pos v hv)

theorem norm3_mul_self (v : V3) : norm3 v * norm3 v = dot3 v v :=
  Real.mul_self_sqrt (dot3_self_nonneg v)

theorem dot3_div_div (a b : V3) (s t : ℝ) :
    dot3 (fun i => a i / s) (fun i => b i / t) = dot3 a b / (s * t) := by
  unfold dot3
  ring

theorem dot3_normalize (a b : V3) :
    dot3 (normalize3 a) (normalize3 b) = dot3 a b / (norm3 a * norm3 b) := by
  unfold normalize3
  exact dot3_div_div a b (norm3 a) (norm3 b)

theorem norm3_normalize (v : V3) (hv : v ≠ 0) : norm3 (normalize3 v) = 1 := by
  have hd : dot3 (normalize3 v) (normalize3 v) = 1 := by
    rw [dot3_normalize, norm3_mul_self,
      div_self (ne_of_gt (dot3_self_pos v hv))]
  unfold norm3
  rw [hd, Real.sqrt_one]

theorem dot3_normalize_eq_zero (a b : V3) (h : dot3 a b = 0) :
    dot3 (normalize3 a) (normalize3 b) = 0 := by
  rw [dot3_normalize, h, zero_div]

theorem cross3_smul_arg (a b : V3) (c : ℝ) :
    cross3 (fun i => c * a i) b = fun i => c * cross3 a b i := by
  funext i
  fin_cases i <;> simp [cross3] <;> ring

theorem normalize3_smul_pos (v : V3) (c : ℝ) (hc : 0 < c) :
    normalize3 (fun i => c * v i) = normalize3 v := by
  have hdot : dot3 (fun i => c * v i) (fun i => c * v i) = c ^ 2 * dot3 v v := by
    unfold dot3; ring
  have hnorm : norm3 (fun i => c * v i) = c * norm3 v := by
    unfold norm3
    rw [hdot, Real.sqrt_mul (sq_nonneg c), Real.sqrt_sq hc.le]
  funext i
  unfold normalize3
  rw [hnorm, mul_div_mul_left _ _ (ne_of_gt hc)]

theorem cross3_normalize (u w : V3) :
    cross3 (normalize3 u) (normalize3 w) =
      fun i => (1 / (norm3 u * norm3 w)) * cross3 u w i := by
  funext i
  fin_cases i <;> simp [cross3, normalize3] <;> ring

theorem normalize3_cross_normalize (u w : V3) (hu : u ≠ 0) (hw : w ≠ 0) :
    normalize3 (cross3 (normalize3 u) (normalize3 w)) = normalize3 (cross3 u w) := by
  rw [cross3_normalize]
  exact normalize3_smul_pos (cross3 u w) _
    (one_div_pos.mpr (mul_pos (norm3_pos u hu) (norm3_pos w hw)))

theorem dot3_cross_left (a b : V3) : dot3 a (cross3 a b) = 0 := by
  simp [dot3, cross3]; ring

theorem dot3_cross_right (a b : V3) : dot3 b (cross3 a b) = 0 := by
  simp [dot3, cross3]; ring

theorem cross3_cross3_left (a b : V3) :
    cross3 (cross3 a b) a = fun i => dot3 a a * b i - dot3 a b * a i := by
  funext i
  fin_cases i <;> simp [cross3, dot3] <;> ring

theorem cross3_cross3_right (a b : V3) :
    cross3 b (cross3 a b) = fun i => dot3 b b * a i - dot3 a b * b i := by
  funext i
  fin_cases i <;> simp [cross3, dot3] <;> ring

theorem dot3_cross3_self (a b : V3) :
    dot3 (cross3 a b) (cross3 a b) = dot3 a a * dot3 b b - dot3 a b * dot3 a b := by
  simp [dot3, cross3]; ring

theorem cross3_zero_left (b : V3) : cross3 0 b = 0 := by
  funext i
  fin_cases i <;> simp [cross3]

theorem cross3_zero_right (a : V3) : cross3 a 0 = 0 := by
  funext i
  fin_cases i <;> simp [cross3]

theorem cross3_anticomm (a b : V3) : cross3 b a = fun i => -1 * cross3 a b i := by
  funext i
  fin_cases i <;> simp [cross3] <;> ring

theorem cross3_ne_zero_symm (a b : V3) (h : cross3 a b ≠ 0) : cross3 b a ≠ 0 := by
  rw [cross3_anticomm]
  intro h0
  apply h
  funext i
  have he := congrFun h0 i
  simpa using he

/-! ### Axis-name bookkeeping -/

theorem AxName.cyc_ne (n : AxName) : n.cyc ≠ n := by
  cases n <;> simp [AxName.cyc]

theorem AxName.cyc_cyc_ne (n : AxName) : n.cyc.cyc ≠ n := by
  cases n <;> simp [AxName.cyc]

theorem AxName.cyc_cyc_cyc (n : AxName) : n.cyc.cyc.cyc = n := by
  cases n <;> simp [AxName.cyc]

theorem AxName.slot_ne_three (n : AxName) : n.slot ≠ 3 := by
  cases n <;> simp [AxName.slot]

theorem AxName.slot_ne_of_ne (m n : AxName) (h : m ≠ n) : m.slot ≠ n.slot := by
  cases m <;> cases n <;> simp_all [AxName.slot]

theorem AxName.cover (n f : AxName) {s t : AxName}
    (h1 : f.cyc = s) (h2 : s.cyc = t) : n = f ∨ n = s ∨ n = t := by
  subst h1
  subst h2
  cases f <;> cases n <;> simp [AxName.cyc]

/-! ### Columns of the dispatched matrix -/

theorem toV4_zero (v : V3) (w : ℝ) : toV4 v w 0 = v 0 := rfl

theorem toV4_one (v : V3) (w : ℝ) : toV4 v w 1 = v 1 := rfl

theorem toV4_two (v : V3) (w : ℝ) : toV4 v w 2 = v 2 := rfl

theorem toV4_three (v : V3) (w : ℝ) : toV4 v w 3 = w := rfl

theorem dispatch_col_first (n1 n2 n3 : AxName) (c1 c2 c3 o : V3) :
    colOf (dispatchM n1 n2 n3 c1 c2 c3 o) n1.slot = c1 := by
  funext i
  fin_cases i <;>
    simp [colOf, dispatchM, AxName.slot_ne_three, toV4_zero, toV4_one, toV4_two]

theorem dispatch_col_second (n1 n2 n3 : AxName) (c1 c2 c3 o : V3)
    (h21 : n2.slot ≠ n1.slot) :
    colOf (dispatchM n1 n2 n3 c1 c2 c3 o) n2.slot = c2 := by
  funext i
  fin_cases i <;>
    simp [colOf, dispatchM, AxName.slot_ne_three, h21, toV4_zero, toV4_one, toV4_two]

theorem dispatch_col_third (n1 n2 n3 : AxName) (c1 c2 c3 o : V3)
    (h31 : n3.slot ≠ n1.slot) (h32 : n3.slot ≠ n2.slot) :
    colOf (dispatchM n1 n2 n3 c1 c2 c3 o) n3.slot = c3 := by
  funext i
  fin_cases i <;>
    simp [colOf, dispatchM, AxName.slot_ne_three, h31, h32, toV4_zero, toV4_one, toV4_two]

theorem toV4_castSucc (v : V3) (w : ℝ) (i : Fin 3) : toV4 v w i.castSucc = v i := by
  have h : ((i.castSucc : Fin 4) : ℕ) < 3 := by simp [i.isLt]
  rw [toV4, dif_pos h]
  exact congrArg v (Fin.ext (by simp))

theorem dispatch_origin (n1 n2 n3 : AxName) (c1 c2 c3 o : V3) (i : Fin 3) :
    dispatchM n1 n2 n3 c1 c2 c3 o i.castSucc 3 = o i := by
  simp [dispatchM, toV4_castSucc]

theorem dispatch_corner (n1 n2 n3 : AxName) (c1 c2 c3 o : V3) :
    dispatchM n1 n2 n3 c1 c2 c3 o 3 3 = 1 := by
  simp [dispatchM, toV4_three]

theorem dispatch_row3 (n1 n2 n3 : AxName) (c1 c2 c3 o : V3) (n : AxName) :
    dispatchM n1 n2 n3 c1 c2 c3 o 3 n.slot = 0 := by
  have h3 := AxName.slot_ne_three n
  simp only [dispatchM]
  split_ifs <;> simp_all [toV4_three]

/-! ### Reordering and the two success branches -/

theorem reorder_spec (fa sa : Axis) (h : fa.name ≠ sa.name) :
    (reorderAxes fa sa).1.name.cyc = (reorderAxes fa sa).2.1.name ∧
    (reorderAxes fa sa).2.1.name.cyc = (reorderAxes fa sa).2.2 ∧
    (((reorderAxes fa sa).1 = fa ∧ (reorderAxes fa sa).2.1 = sa) ∨
     ((reorderAxes fa sa).1 = sa ∧ (reorderAxes fa sa).2.1 = fa)) := by
  cases hf : fa.name <;> cases hs : sa.name <;>
    simp_all [reorderAxes, AxName.cyc]

theorem from_markers_eq_buildFrom (origin : Marker) (fa sa : Axis)
    (keep : AxName) (parent : Option RT) (h : fa.name ≠ sa.name) :
    RT.from_markers origin fa sa keep parent =
      buildFrom origin (reorderAxes fa sa).1 (reorderAxes fa sa).2.1
        (reorderAxes fa sa).2.2 keep parent := by
  simp [RT.from_markers, h]

theorem buildFrom_ok_first (origin : Marker) (f s : Axis) (tn : AxName)
    (keep : AxName) (parent : Option RT) (hk : keep = f.name) :
    buildFrom origin f s tn keep parent = .ok (RT.mk
      (dispatchM f.name s.name tn (normalize3 f.axis)
        (normalize3 (cross3 (cross3 f.axis s.axis) f.axis))
        (normalize3 (cross3 f.axis s.axis)) origin.position) parent false) := by
  subst hk
  simp [buildFrom]

theorem buildFrom_ok_second (origin : Marker) (f s : Axis) (tn : AxName)
    (keep : AxName) (parent : Option RT) (hne : f.name ≠ s.name)
    (hk : keep = s.name) :
    buildFrom origin f s tn keep parent = .ok (RT.mk
      (dispatchM f.name s.name tn
        (normalize3 (cross3 s.axis (cross3 f.axis s.axis)))
        (normalize3 s.axis)
        (normalize3 (cross3 f.axis s.axis)) origin.position) parent false) := by
  subst hk
  simp [buildFrom, Ne.symm hne]

theorem buildFrom_err (origin : Marker) (f s : Axis) (tn : AxName)
    (keep : AxName) (parent : Option RT) (hk1 : keep ≠ f.name)
    (hk2 : keep ≠ s.name) :
    buildFrom origin f s tn keep parent = .error .badKeep := by
  simp [buildFrom, hk1, hk2]

/-! ### Geometry of the recomputed frame -/

theorem frame_first (a b : V3) (h : cross3 a b ≠ 0) :
    a ≠ 0 ∧ cross3 (cross3 a b) a ≠ 0 ∧
    dot3 a (cross3 (cross3 a b) a) = 0 ∧
    dot3 a (cross3 a b) = 0 ∧
    dot3 (cross3 (cross3 a b) a) (cross3 a b) = 0 ∧
    cross3 a (cross3 (cross3 a b) a) = fun i => dot3 a a * cross3 a b i := by
  have ha : a ≠ 0 := by
    intro h0
    apply h
    rw [h0, cross3_zero_left]
  have hza : dot3 (cross3 a b) a = 0 := by
    rw [dot3_comm]
    exact dot3_cross_left a b
  refine ⟨ha, ?_, dot3_cross_right _ _, dot3_cross_left a b, ?_, ?_⟩
  · apply ne_zero_of_dot3_pos
    rw [dot3_cross3_self, hza]
    have := mul_pos (dot3_self_pos _ h) (dot3_self_pos a ha)
    linarith
  · rw [dot3_comm]
    exact dot3_cross_left _ _
  · rw [cross3_cross3_right (cross3 a b) a]
    funext i
    rw [hza]
    ring

theorem frame_second (a b : V3) (h : cross3 a b ≠ 0) :
    b ≠ 0 ∧ cross3 b (cross3 a b) ≠ 0 ∧
    dot3 (cross3 b (cross3 a b)) b = 0 ∧
    dot3 (cross3 b (cross3 a b)) (cross3 a b) = 0 ∧
    dot3 b (cross3 a b) = 0 ∧
    cross3 (cross3 b (cross3 a b)) b = fun i => dot3 b b * cross3 a b i := by
  have hb : b ≠ 0 := by
    intro h0
    apply h
    rw [h0, cross3_zero_right]
  have hzb : dot3 b (cross3 a b) = 0 := dot3_cross_right a b
  refine ⟨hb, ?_, ?_, ?_, hzb, ?_⟩
  · apply ne_zero_of_dot3_pos
    rw [dot3_cross3_self, hzb]
    have := mul_pos (dot3_self_pos b hb) (dot3_self_pos _ h)
    linarith
  · rw [dot3_comm]
    exact dot3_cross_left _ _
  · rw [dot3_comm]
    exact dot3_cross_right _ _
  · rw [cross3_cross3_left b (cross3 a b)]
    funext i
    rw [hzb]
    ring

theorem frame_normalized (u1 u2 u3 : V3) (hu1 : u1 ≠ 0) (hu2 : u2 ≠ 0)
    (hu3 : u3 ≠ 0) (h12 : dot3 u1 u2 = 0) (h13 : dot3 u1 u3 = 0)
    (h23 : dot3 u2 u3 = 0) (c : ℝ) (hc : 0 < c)
    (hcr : cross3 u1 u2 = fun i => c * u3 i) :
    norm3 (normalize3 u1) = 1 ∧ norm3 (normalize3 u2) = 1 ∧
    norm3 (normalize3 u3) = 1 ∧
    dot3 (normalize3 u1) (normalize3 u2) = 0 ∧
    dot3 (normalize3 u1) (normalize3 u3) = 0 ∧
    dot3 (normalize3 u2) (normalize3 u3) = 0 ∧
    normalize3 (cross3 (normalize3 u1) (normalize3 u2)) = normalize3 u3 := by
  refine ⟨norm3_normalize _ hu1, norm3_normalize _ hu2, norm3_normalize _ hu3,
    dot3_normalize_eq_zero _ _ h12, dot3_normalize_eq_zero _ _ h13,
    dot3_normalize_eq_zero _ _ h23, ?_⟩
  rw [normalize3_cross_normalize u1 u2 hu1 hu2, hcr]
  exact normalize3_smul_pos u3 c hc

/-- C5: with distinct valid axis names, a valid axis-to-keep and
non-parallel, non-zero axis vectors, `from_markers` returns an SCS whose
rotation columns are unit-length, pairwise orthogonal and right-handed
(the column at the derived third axis slot is the normalized cross
product of the other two taken in cyclic X→Y→Z order), whose fourth
column is the origin position over 1, with `is_rt_local = false` and the
given parent reference attached. -/
theorem c5_from_markers_frame (origin : Marker) (fa sa : Axis) (keep : AxName)
    (parent : Option RT) (hname : fa.name ≠ sa.name)
    (hkeep : keep = fa.name ∨ keep = sa.name)
    (hv : cross3 fa.axis sa.axis ≠ 0) :
    ∃ out, RT.from_markers origin fa sa keep parent = .ok out ∧
      out.is_rt_local = false ∧ out.parent_rt = parent ∧
      (∀ n : AxName, norm3 (colOf out.rt n.slot) = 1) ∧
      (∀ m n : AxName, m ≠ n →
        dot3 (colOf out.rt m.slot) (colOf out.rt n.slot) = 0) ∧
      colOf out.rt (reorderAxes fa sa).2.2.slot =
        normalize3 (cross3 (colOf out.rt (reorderAxes fa sa).2.2.cyc.slot)
          (colOf out.rt (reorderAxes fa sa).2.2.cyc.cyc.slot)) ∧
      (∀ i : Fin 3, out.rt i.castSucc 3 = origin.position i) ∧
      out.rt 3 3 = 1 ∧ (∀ n : AxName, out.rt 3 n.slot = 0) := by
  obtain ⟨hc1, hc2, hsw⟩ := reorder_spec fa sa hname
  set f := (reorderAxes fa sa).1 with hfdef
  set s := (reorderAxes fa sa).2.1 with hsdef
  set tn := (reorderAxes fa sa).2.2 with htdef
  have hfs : f.name ≠ s.name := fun he => AxName.cyc_ne f.name (hc1.trans he.symm)
  have hc2' : f.name.cyc.cyc = tn := by rw [hc1]; exact hc2
  have hftn : f.name ≠ tn := fun he => AxName.cyc_cyc_ne f.name (hc2'.trans he.symm)
  have hstn : s.name ≠ tn := fun he => AxName.cyc_ne s.name (hc2.trans he.symm)
  have hv' : cross3 f.axis s.axis ≠ 0 := by
    rcases hsw with ⟨h1, h2⟩ | ⟨h1, h2⟩
    · rw [h1, h2]; exact hv
    · rw [h1, h2]; exact cross3_ne_zero_symm _ _ hv
  have hkeep' : keep = f.name ∨ keep = s.name := by
    rcases hsw with ⟨h1, h2⟩ | ⟨h1, h2⟩
    · rw [h1, h2]; exact hkeep
    · rw [h1, h2]; exact Or.symm hkeep
  have hslot21 : s.name.slot ≠ f.name.slot := AxName.slot_ne_of_ne _ _ (Ne.symm hfs)
  have hslot31 : tn.slot ≠ f.name.slot := AxName.slot_ne_of_ne _ _ (Ne.symm hftn)
  have hslot32 : tn.slot ≠ s.name.slot := AxName.slot_ne_of_ne _ _ (Ne.symm hstn)
  have htcyc1 : tn.cyc = f.name := by rw [← hc2, ← hc1, AxName.cyc_cyc_cyc]
  have htcyc2 : tn.cyc.cyc = s.name := by rw [htcyc1, hc1]
  rw [from_markers_eq_buildFrom origin fa sa keep parent hname]
  rcases hkeep' with hk | hk
  · rw [buildFrom_ok_first origin f s tn keep parent hk]
    obtain ⟨ha, hu2, h12, h13, h23, hcr⟩ := frame_first f.axis s.axis hv'
    obtain ⟨N1, N2, N3, D12, D13, D23, RH⟩ :=
      frame_normalized f.axis (cross3 (cross3 f.axis s.axis) f.axis)
        (cross3 f.axis s.axis) ha hu2 hv' h12 h13 h23
        (dot3 f.axis f.axis) (dot3_self_pos _ ha) hcr
    have D21 : dot3 (normalize3 (cross3 (cross3 f.axis s.axis) f.axis))
        (normalize3 f.axis) = 0 := by rw [dot3_comm]; exact D12
    have D31 : dot3 (normalize3 (cross3 f.axis s.axis)) (normalize3 f.axis) = 0 := by
      rw [dot3_comm]; exact D13
    have D32 : dot3 (normalize3 (cross3 f.axis s.axis))
        (normalize3 (cross3 (cross3 f.axis s.axis) f.axis)) = 0 := by
      rw [dot3_comm]; exact D23
    have hcol1 := dispatch_col_first f.name s.name tn (normalize3 f.axis)
      (normalize3 (cross3 (cross3 f.axis s.axis) f.axis))
      (normalize3 (cross3 f.axis s.axis)) origin.position
    have hcol2 := dispatch_col_second f.name s.name tn (normalize3 f.axis)
      (normalize3 (cross3 (cross3 f.axis s.axis) f.axis))
      (normalize3 (cross3 f.axis s.axis)) origin.position hslot21
    have hcol3 := dispatch_col_third f.name s.name tn (normalize3 f.axis)
      (normalize3 (cross3 (cross3 f.axis s.axis) f.axis))
      (normalize3 (cross3 f.axis s.axis)) origin.position hslot31 hslot32
    refine ⟨_, rfl, rfl, rfl, ?_, ?_, ?_, ?_, ?_, ?_⟩
    rotate_left 3
    · intro i
      rw [RT.rt_mk]
      exact dispatch_origin _ _ _ _ _ _ _ i
    · rw [RT.rt_mk]
      exact dispatch_corner _ _ _ _ _ _ _
    · intro n
      rw [RT.rt_mk]
      exact dispatch_row3 _ _ _ _ _ _ _ n
    · intro n
      rcases AxName.cover n f.name hc1 hc2 with rfl | rfl | rfl
      · rw [RT.rt_mk, hcol1]; exact N1
      · rw [RT.rt_mk, hcol2]; exact N2
      · rw [RT.rt_mk, hcol3]; exact N3
    · intro m n hmn
      rcases AxName.cover m f.name hc1 hc2 with rfl | rfl | rfl <;>
        rcases AxName.cover n f.name hc1 hc2 with rfl | rfl | rfl <;>
        rw [RT.rt_mk] <;>
        first
          | exact absurd rfl hmn
          | (rw [hcol1, hcol2]; exact D12)
          | (rw [hcol1, hcol3]; exact D13)
          | (rw [hcol2, hcol1]; exact D21)
          | (rw [hcol2, hcol3]; exact D23)
          | (rw [hcol3, hcol1]; exact D31)
          | (rw [hcol3, hcol2]; exact D32)
    · rw [RT.rt_mk, htcyc2, htcyc1, hcol1, hcol2, hcol3]
      exact RH.symm
  · rw [buildFrom_ok_second origin f s tn keep parent hfs hk]
    obtain ⟨hb, hu1, h12, h13, h23, hcr⟩ := frame_second f.axis s.axis hv'
    obtain ⟨N1, N2, N3, D12, D13, D23, RH⟩ :=
      frame_normalized (cross3 s.axis (cross3 f.axis s.axis)) s.axis
        (cross3 f.axis s.axis) hu1 hb hv' h12 h13 h23
        (dot3 s.axis s.axis) (dot3_self_pos _ hb) hcr
    have D21 : dot3 (normalize3 s.axis)
        (normalize3 (cross3 s.axis (cross3 f.axis s.axis))) = 0 := by
      rw [dot3_comm]; exact D12
    have D31 : dot3 (normalize3 (cross3 f.axis s.axis))
        (normalize3 (cross3 s.axis (cross3 f.axis s.axis))) = 0 := by
      rw [dot3_comm]; exact D13
    have D32 : dot3 (normalize3 (cross3 f.axis s.axis)) (normalize3 s.axis) = 0 := by
      rw [dot3_comm]; exact D23
    have hcol1 := dispatch_col_first f.name s.name tn
      (normalize3 (cross3 s.axis (cross3 f.axis s.axis))) (normalize3 s.axis)
      (normalize3 (cross3 f.axis s.axis)) origin.position
    have hcol2 := dispatch_col_second f.name s.name tn
      (normalize3 (cross3 s.axis (cross3 f.axis s.axis))) (normalize3 s.axis)
      (normalize3 (cross3 f.axis s.axis)) origin.position hslot21
    have hcol3 := dispatch_col_third f.name s.name tn
      (normalize3 (cross3 s.axis (cross3 f.axis s.axis))) (normalize3 s.axis)
      (normalize3 (cross3 f.axis s.axis)) origin.position hslot31 hslot32
    refine ⟨_, rfl, rfl, rfl, ?_, ?_, ?_, ?_, ?_, ?_⟩
    rotate_left 3
    · intro i
      rw [RT.rt_mk]
      exact dispatch_origin _ _ _ _ _ _ _ i
    · rw [RT.rt_mk]
      exact dispatch_corner _ _ _ _ _ _ _
    · intro n
      rw [RT.rt_mk]
      exact dispatch_row3 _ _ _ _ _ _ _ n
    · intro n
      rcases AxName.cover n f.name hc1 hc2 with rfl | rfl | rfl
      · rw [RT.rt_mk, hcol1]; exact N1
      · rw [RT.rt_mk, hcol2]; exact N2
      · rw [RT.rt_mk, hcol3]; exact N3
    · intro m n hmn
      rcases AxName.cover m f.name hc1 hc2 with rfl | rfl | rfl <;>
        rcases AxName.cover n f.name hc1 hc2 with rfl | rfl | rfl <;>
        rw [RT.rt_mk] <;>
        first
          | exact absurd rfl hmn
          | (rw [hcol1, hcol2]; exact D12)
          | (rw [hcol1, hcol3]; exact D13)
          | (rw [hcol2, hcol1]; exact D21)
          | (rw [hcol2, hcol3]; exact D23)
          | (rw [hcol3, hcol1]; exact D31)
          | (rw [hcol3, hcol2]; exact D32)
    · rw [RT.rt_mk, htcyc2, htcyc1, hcol1, hcol2, hcol3]
      exact RH.symm

/-- C6: the axis named by `axis_to_keep` is preserved exactly — its
column is the normalization of that axis's supplied vector — and the
origin translation does not depend on the choice; comparing the two runs
that differ only in which supplied axis is kept, the derived third
column is identical; an `axis_to_keep` naming neither supplied axis
fails. -/
theorem c6_axis_to_keep (origin : Marker) (fa sa : Axis) (parent : Option RT)
    (hname : fa.name ≠ sa.name) :
    (∃ M1, RT.from_markers origin fa sa fa.name parent = .ok M1 ∧
      colOf M1.rt fa.name.slot = normalize3 fa.axis ∧
      (∀ i : Fin 3, M1.rt i.castSucc 3 = origin.position i)) ∧
    (∃ M2, RT.from_markers origin fa sa sa.name parent = .ok M2 ∧
      colOf M2.rt sa.name.slot = normalize3 sa.axis ∧
      (∀ i : Fin 3, M2.rt i.castSucc 3 = origin.position i)) ∧
    (∀ M1 M2, RT.from_markers origin fa sa fa.name parent = .ok M1 →
      RT.from_markers origin fa sa sa.name parent = .ok M2 →
      colOf M1.rt (reorderAxes fa sa).2.2.slot =
        colOf M2.rt (reorderAxes fa sa).2.2.slot) ∧
    (∀ keep, keep ≠ fa.name → keep ≠ sa.name →
      RT.from_markers origin fa sa keep parent = .error .badKeep) := by
  obtain ⟨hc1, hc2, hsw⟩ := reorder_spec fa sa hname
  rcases hsw with ⟨h1, h2⟩ | ⟨h1, h2⟩
  · rw [h1, h2] at hc1
    rw [h2] at hc2
    have hftn : fa.name ≠ (reorderAxes fa sa).2.2 := fun he =>
      AxName.cyc_cyc_ne fa.name (((hc1 ▸ rfl : fa.name.cyc.cyc = sa.name.cyc).trans hc2).trans he.symm)
    have hstn : sa.name ≠ (reorderAxes fa sa).2.2 := fun he =>
      AxName.cyc_ne sa.name (hc2.trans he.symm)
    refine ⟨?_, ?_, ?_, ?_⟩
    · rw [from_markers_eq_buildFrom origin fa sa fa.name parent hname, h1, h2,
        buildFrom_ok_first origin fa sa _ fa.name parent rfl]
      exact ⟨_, rfl, by rw [RT.rt_mk, dispatch_col_first],
        fun i => by rw [RT.rt_mk, dispatch_origin]⟩
    · rw [from_markers_eq_buildFrom origin fa sa sa.name parent hname, h1, h2,
        buildFrom_ok_second origin fa sa _ sa.name parent hname rfl]
      exact ⟨_, rfl, by rw [RT.rt_mk,
          dispatch_col_second _ _ _ _ _ _ _ (AxName.slot_ne_of_ne _ _ (Ne.symm hname))],
        fun i => by rw [RT.rt_mk, dispatch_origin]⟩
    · intro M1 M2 e1 e2
      rw [from_markers_eq_buildFrom origin fa sa fa.name parent hname, h1, h2,
        buildFrom_ok_first origin fa sa _ fa.name parent rfl] at e1
      rw [from_markers_eq_buildFrom origin fa sa sa.name parent hname, h1, h2,
        buildFrom_ok_second origin fa sa _ sa.name parent hname rfl] at e2
      injection e1 with e1'
      injection e2 with e2'
      rw [← e1', ← e2', RT.rt_mk, RT.rt_mk,
        dispatch_col_third _ _ _ _ _ _ _ (AxName.slot_ne_of_ne _ _ (Ne.symm hftn))
          (AxName.slot_ne_of_ne _ _ (Ne.symm hstn)),
        dispatch_col_third _ _ _ _ _ _ _ (AxName.slot_ne_of_ne _ _ (Ne.symm hftn))
          (AxName.slot_ne_of_ne _ _ (Ne.symm hstn))]
    · intro keep hk1 hk2
      rw [from_markers_eq_buildFrom origin fa sa keep parent hname, h1, h2]
      exact buildFrom_err origin fa sa _ keep parent hk1 hk2
  · rw [h1, h2] at hc1
    rw [h2] at hc2
    have hftn : fa.name ≠ (reorderAxes fa sa).2.2 := fun he =>
      AxName.cyc_ne fa.name (hc2.trans he.symm)
    have hstn : sa.name ≠ (reorderAxes fa sa).2.2 := fun he =>
      AxName.cyc_cyc_ne sa.name (((hc1 ▸ rfl : sa.name.cyc.cyc = fa.name.cyc).trans hc2).trans he.symm)
    refine ⟨?_, ?_, ?_, ?_⟩
    · rw [from_markers_eq_buildFrom origin fa sa fa.name parent hname, h1, h2,
        buildFrom_ok_second origin sa fa _ fa.name parent (Ne.symm hname) rfl]
      exact ⟨_, rfl, by rw [RT.rt_mk,
          dispatch_col_second _ _ _ _ _ _ _ (AxName.slot_ne_of_ne _ _ hname)],
        fun i => by rw [RT.rt_mk, dispatch_origin]⟩
    · rw [from_markers_eq_buildFrom origin fa sa sa.name parent hname, h1, h2,
        buildFrom_ok_first origin sa fa _ sa.name parent rfl]
      exact ⟨_, rfl, by rw [RT.rt_mk, dispatch_col_first],
        fun i => by rw [RT.rt_mk, dispatch_origin]⟩
    · intro M1 M2 e1 e2
      rw [from_markers_eq_buildFrom origin fa sa fa.name parent hname, h1, h2,
        buildFrom_ok_second origin sa fa _ fa.name parent (Ne.symm hname) rfl] at e1
      rw [from_markers_eq_buildFrom origin fa sa sa.name parent hname, h1, h2,
        buildFrom_ok_first origin sa fa _ sa.name parent rfl] at e2
      injection e1 with e1'
      injection e2 with e2'
      rw [← e1', ← e2', RT.rt_mk, RT.rt_mk,
        dispatch_col_third _ _ _ _ _ _ _ (AxName.slot_ne_of_ne _ _ (Ne.symm hstn))
          (AxName.slot_ne_of_ne _ _ (Ne.symm hftn)),
        dispatch_col_third _ _ _ _ _ _ _ (AxName.slot_ne_of_ne _ _ (Ne.symm hstn))
          (AxName.slot_ne_of_ne _ _ (Ne.symm hftn))]
    · intro keep hk1 hk2
      rw [from_markers_eq_buildFrom origin fa sa keep parent hname, h1, h2]
      exact buildFrom_err origin sa fa _ keep parent hk2 hk1

/-- C2 (amended): `from_markers` has no degenerate-geometry check: for
every call with distinct valid axis names and a valid `axis_to_keep`,
construction returns an SCS object — including for collinear or
zero-length axis vectors, where the float implementation divides by a
zero norm — and never raises a degeneracy error. -/
theorem c2_no_degeneracy_check (origin : Marker) (fa sa : Axis) (keep : AxName)
    (parent : Option RT) (hname : fa.name ≠ sa.name)
    (hkeep : keep = fa.name ∨ keep = sa.name) :
    exceptOk (RT.from_markers origin fa sa keep parent) = true := by
  obtain ⟨hc1, hc2, hsw⟩ := reorder_spec fa sa hname
  rcases hsw with ⟨h1, h2⟩ | ⟨h1, h2⟩ <;>
    rw [from_markers_eq_buildFrom origin fa sa keep parent hname, h1, h2] <;>
    rcases hkeep with hk | hk
  · rw [buildFrom_ok_first origin fa sa _ keep parent hk]; rfl
  · rw [buildFrom_ok_second origin fa sa _ keep parent hname hk]; rfl
  · rw [buildFrom_ok_second origin sa fa _ keep parent (Ne.symm hname) hk]; rfl
  · rw [buildFrom_ok_first origin sa fa _ keep parent hk]; rfl

/-- C2 counterexample: coincident axis markers (both supplied axes are
the segment from (0,0,0) to (1,0,0), so the cross product is the zero
vector and every norm in sight is 0 or degenerate), yet `from_markers`
returns normally instead of failing with a degeneracy error. -/
theorem c2_degenerate_counterexample :
    cross3 wAxisX.axis wAxisYdeg.axis = 0 ∧
    exceptOk (RT.from_markers wOrigin wAxisX wAxisYdeg AxName.X none) = true := by
  constructor
  · funext i
    fin_cases i <;> simp [cross3, Axis.axis, wAxisX, wAxisYdeg, wMarker]
  · rfl

/-- C2 witness: the amended theorem applied to the degenerate input. -/
theorem c2_no_degeneracy_check_witness :
    wAxisX.name ≠ wAxisYdeg.name ∧
    exceptOk (RT.from_markers wOrigin wAxisX wAxisYdeg AxName.X none) = true :=
  ⟨fun h => AxName.noConfusion h,
    c2_no_degeneracy_check wOrigin wAxisX wAxisYdeg AxName.X none
      (fun h => AxName.noConfusion h) (Or.inl rfl)⟩

/-- C5 witness: the frame theorem applied to an X axis (1,0,0), a Y axis
(0,1,0) and origin (1,2,3). -/
theorem c5_from_markers_frame_witness :
    wAxisX.name ≠ wAxisY.name ∧ cross3 wAxisX.axis wAxisY.axis ≠ 0 ∧
    (∃ out, RT.from_markers wOrigin wAxisX wAxisY AxName.X none = .ok out ∧
      out.is_rt_local = false ∧ out.parent_rt = none ∧
      (∀ n : AxName, norm3 (colOf out.rt n.slot) = 1) ∧
      (∀ m n : AxName, m ≠ n →
        dot3 (colOf out.rt m.slot) (colOf out.rt n.slot) = 0) ∧
      colOf out.rt (reorderAxes wAxisX wAxisY).2.2.slot =
        normalize3 (cross3 (colOf out.rt (reorderAxes wAxisX wAxisY).2.2.cyc.slot)
          (colOf out.rt (reorderAxes wAxisX wAxisY).2.2.cyc.cyc.slot)) ∧
      (∀ i : Fin 3, out.rt i.castSucc 3 = wOrigin.position i) ∧
      out.rt 3 3 = 1 ∧ (∀ n : AxName, out.rt 3 n.slot = 0)) := by
  have h1 : wAxisX.name ≠ wAxisY.name := fun h => AxName.noConfusion h
  have h2 : cross3 wAxisX.axis wAxisY.axis ≠ 0 := by
    intro h
    have h3 := congrFun h 2
    simp [cross3, Axis.axis, wAxisX, wAxisY, wMarker] at h3
  exact ⟨h1, h2,
    c5_from_markers_frame wOrigin wAxisX wAxisY AxName.X none h1 (Or.inl rfl) h2⟩

/-- C6 witness: the axis-to-keep theorem applied to concrete X/Y axes. -/
theorem c6_axis_to_keep_witness :
    wAxisX.name ≠ wAxisY.name ∧
    (∃ M1, RT.from_markers wOrigin wAxisX wAxisY wAxisX.name none = .ok M1 ∧
      colOf M1.rt wAxisX.name.slot = normalize3 wAxisX.axis ∧
      (∀ i : Fin 3, M1.rt i.castSucc 3 = wOrigin.position i)) ∧
    (∃ M2, RT.from_markers wOrigin wAxisX wAxisY wAxisY.name none = .ok M2 ∧
      colOf M2.rt wAxisY.name.slot = normalize3 wAxisY.axis ∧
      (∀ i : Fin 3, M2.rt i.castSucc 3 = wOrigin.position i)) ∧
    (∀ M1 M2, RT.from_markers wOrigin wAxisX wAxisY wAxisX.name none = .ok M1 →
      RT.from_markers wOrigin wAxisX wAxisY wAxisY.name none = .ok M2 →
      colOf M1.rt (reorderAxes wAxisX wAxisY).2.2.slot =
        colOf M2.rt (reorderAxes wAxisX wAxisY).2.2.slot) ∧
    (∀ keep, keep ≠ wAxisX.name → keep ≠ wAxisY.name →
      RT.from_markers wOrigin wAxisX wAxisY keep none = .error .badKeep) :=
  ⟨fun h => AxName.noConfusion h,
    c6_axis_to_keep wOrigin wAxisX wAxisY none (fun h => AxName.noConfusion h)⟩

/-! ### NaN-mean lemmas for marker binding -/

theorem nanmean_eq_none (l : List (Option ℝ)) (h : ∀ x ∈ l, x = none) :
    nanmean l = none := by
  have hf : l.filterMap id = [] := by
    rw [List.filterMap_eq_nil_iff]
    intro a ha
    exact h a ha
  simp [nanmean, hf]

theorem nanmean_isSome (l : List (Option ℝ)) (h : ∃ x ∈ l, x.isSome) :
    (nanmean l).isSome := by
  obtain ⟨x, hx, hs⟩ := h
  obtain ⟨v, rfl⟩ := Option.isSome_iff_exists.mp hs
  have hv : v ∈ l.filterMap id := List.mem_filterMap.mpr ⟨some v, hx, rfl⟩
  have hne : (l.filterMap id).length ≠ 0 := by
    intro h0
    rw [List.length_eq_zero] at h0
    exact List.ne_nil_of_mem hv h0
  simp [nanmean, hne]

theorem npMean_eq_none_of_mem (l : List (Option ℝ)) (h : none ∈ l) :
    npMean l = none := by
  have ha : l.any (fun x => x.isNone) = true :=
    List.any_eq_true.mpr ⟨none, h, rfl⟩
  unfold npMean
  split_ifs <;> simp_all

theorem npMean_isSome (l : List (Option ℝ)) (hne : l ≠ [])
    (h : ∀ x ∈ l, x.isSome) : (npMean l).isSome := by
  have hlen : l.length ≠ 0 := by
    intro h0
    exact hne (List.length_eq_zero.mp h0)
  have hany : l.any (fun x => x.isNone) = false := by
    rw [List.any_eq_false]
    intro x hx
    have := h x hx
    simp [Option.isNone_iff_eq_none]
    intro h0
    rw [h0] at this
    simp at this
  simp [npMean, hlen, hany]

theorem indicesInC3d_ok (c3d : C3DData) (names : List String)
    (h : ∀ n ∈ names, (c3d.labels.findIdx? (fun l => l = n)).isSome) :
    indicesInC3d c3d names =
      .ok (names.map fun n => (c3d.labels.findIdx? (fun l => l = n)).getD 0) := by
  induction names with
  | nil => rfl
  | cons n rest ih =>
    obtain ⟨i, hi⟩ := Option.isSome_iff_exists.mp (h n (List.mem_cons_self n rest))
    rw [indicesInC3d, hi, ih (fun m hm => h m (List.mem_cons_of_mem _ hm))]
    simp [hi, Except.map]

/-- C8: `to_marker` (via `Marker.from_data`), when every requested label
is present in the trial:
with some requested marker NaN across all samples it fails with the
missing-marker error naming the requested set; when every requested
marker has a non-NaN sample it returns a concrete marker whose position
is the finite mean over samples and marker names, converted to meters
and re-expressed through the parent's inverse transform. -/
theorem c8_to_marker (c3d : C3DData) (g : MarkerGeneric) (parent : Option RT)
    (hlab : ∀ n ∈ g.from_markers, (c3d.labels.findIdx? (fun l => l = n)).isSome) :
    ((∃ n ∈ g.from_markers, ∀ k, c3d.labels.findIdx? (fun l => l = n) = some k →
        ∀ fr ∈ c3d.points k, ∀ i, fr i = none) →
      g.to_marker c3d parent = .error (.missingMarkers g.from_markers)) ∧
    (g.from_markers ≠ [] →
      (∀ n ∈ g.from_markers, ∀ k, c3d.labels.findIdx? (fun l => l = n) = some k →
        ∃ fr ∈ c3d.points k, ∀ i, (fr i).isSome) →
      ∃ mk, g.to_marker c3d parent = .ok mk ∧ mk.name = g.name ∧
        mk.parent_name = g.parent_name ∧
        mk.position = fun i => ((match parent with
          | some p => transposeM p.rt
          | none => 1).mulVec (fun j =>
            ((meteredOf c3d (g.from_markers.map fun n =>
              (c3d.labels.findIdx? (fun l => l = n)).getD 0)) j).getD 0)) i.castSucc) := by
  have hidx := indicesInC3d_ok c3d g.from_markers hlab
  set idx := g.from_markers.map fun n =>
    (c3d.labels.findIdx? (fun l => l = n)).getD 0 with hidxdef
  constructor
  · rintro ⟨n, hn, hnan⟩
    obtain ⟨k, hk⟩ := Option.isSome_iff_exists.mp (hlab n hn)
    have hkmem : k ∈ idx := by
      rw [hidxdef]
      exact List.mem_map.mpr ⟨n, hn, by rw [hk]; rfl⟩
    have h0 : meteredOf c3d idx 0 = none := by
      rw [meteredOf]
      rw [if_neg (by decide)]
      have hnan0 : nanmean ((c3d.points k).map fun fr => fr 0) = none := by
        apply nanmean_eq_none
        intro x hx
        obtain ⟨fr, hfr, rfl⟩ := List.mem_map.mp hx
        exact hnan k hk fr hfr 0
      have hmem0 : (none : Option ℝ) ∈
          idx.map (fun k' => nanmean ((c3d.points k').map fun fr => fr 0)) :=
        List.mem_map.mpr ⟨k, hkmem, hnan0⟩
      rw [npMean_eq_none_of_mem _ hmem0]
      rfl
    have hcond : ((List.finRange 4).any
        (fun i => ((meteredOf c3d idx) i).isNone)) = true := by
      apply List.any_eq_true.mpr
      exact ⟨0, List.mem_finRange 0, by rw [h0]; rfl⟩
    simp only [MarkerGeneric.to_marker, Marker.from_data, hidx]
    simp [hcond]
  · intro hne hsome
    have hcond : ((List.finRange 4).any
        (fun i => ((meteredOf c3d idx) i).isNone)) = false := by
      rw [List.any_eq_false]
      intro i hi
      by_cases h3 : i = 3
      · subst h3
        simp [meteredOf]
      · have hiS : (npMean (idx.map fun k =>
            nanmean ((c3d.points k).map fun fr => fr i))).isSome := by
          apply npMean_isSome
          · intro hemp
            rw [List.map_eq_nil_iff] at hemp
            rw [hidxdef, List.map_eq_nil_iff] at hemp
            exact hne hemp
          · intro x hx
            obtain ⟨k, hkm, rfl⟩ := List.mem_map.mp hx
            rw [hidxdef] at hkm
            obtain ⟨n, hn, hkeq⟩ := List.mem_map.mp hkm
            obtain ⟨k0, hk0⟩ := Option.isSome_iff_exists.mp (hlab n hn)
            have hkk : k = k0 := by rw [← hkeq, hk0]; rfl
            subst hkk
            obtain ⟨fr, hfr, hfri⟩ := hsome n hn k hk0
            exact nanmean_isSome _ ⟨fr i, List.mem_map.mpr ⟨fr, hfr, rfl⟩, hfri i⟩
        simp [meteredOf, h3]
        intro hcontra
        rw [hcontra] at hiS
        simp at hiS
    simp only [MarkerGeneric.to_marker, Marker.from_data, hidx]
    simp only [hcond, Bool.false_eq_true, if_false]
    exact ⟨_, rfl, rfl, rfl, rfl⟩

/-- C8 witness: the marker-binding theorem applied to a one-label
millimeter trial with a single finite frame. -/
theorem c8_to_marker_witness :
    (∀ n ∈ wMG.from_markers, (wC3D.labels.findIdx? (fun l => l = n)).isSome) ∧
    (((∃ n ∈ wMG.from_markers, ∀ k, wC3D.labels.findIdx? (fun l => l = n) = some k →
        ∀ fr ∈ wC3D.points k, ∀ i, fr i = none) →
      wMG.to_marker wC3D none = .error (.missingMarkers wMG.from_markers)) ∧
    (wMG.from_markers ≠ [] →
      (∀ n ∈ wMG.from_markers, ∀ k, wC3D.labels.findIdx? (fun l => l = n) = some k →
        ∃ fr ∈ wC3D.points k, ∀ i, (fr i).isSome) →
      ∃ mk, wMG.to_marker wC3D none = .ok mk ∧ mk.name = wMG.name ∧
        mk.parent_name = wMG.parent_name ∧
        mk.position = fun i => ((match (none : Option RT) with
          | some p => transposeM p.rt
          | none => 1).mulVec (fun j =>
            ((meteredOf wC3D (wMG.from_markers.map fun n =>
              (wC3D.labels.findIdx? (fun l => l = n)).getD 0)) j).getD 0)) i.castSucc)) := by
  have hlabW : ∀ n ∈ wMG.from_markers,
      (wC3D.labels.findIdx? (fun l => l = n)).isSome := by decide
  exact ⟨hlabW, c8_to_marker wC3D wMG none hlabW⟩

/-! ### Assembly lemmas: binding success never inspects the parent -/

theorem to_marker_parent_indep (m : MarkerGeneric) (c3d : C3DData)
    (p q : Option RT) (h : ∃ mk, m.to_marker c3d p = .ok mk) :
    ∃ mk, m.to_marker c3d q = .ok mk := by
  obtain ⟨mk, hmk⟩ := h
  simp only [MarkerGeneric.to_marker, Marker.from_data] at hmk ⊢
  cases hidx : indicesInC3d c3d m.from_markers with
  | error e =>
    simp only [hidx] at hmk
    exact absurd hmk (by simp)
  | ok index =>
    simp only [hidx] at hmk ⊢
    by_cases hc : ((List.finRange 4).any fun i => ((meteredOf c3d index) i).isNone) = true
    · rw [if_pos hc] at hmk
      exact absurd hmk (by simp)
    · rw [if_neg hc]
      exact ⟨_, rfl⟩

theorem from_markers_parent_indep (o : Marker) (a1 a2 : Axis) (k : AxName)
    (p q : Option RT) (h : ∃ rt, RT.from_markers o a1 a2 k p = .ok rt) :
    ∃ rt, RT.from_markers o a1 a2 k q = .ok rt := by
  obtain ⟨rt, hrt⟩ := h
  by_cases hn : a1.name = a2.name
  · rw [RT.from_markers, if_pos hn] at hrt
    exact absurd hrt (by simp)
  · rw [from_markers_eq_buildFrom o a1 a2 k p hn] at hrt
    rw [from_markers_eq_buildFrom o a1 a2 k q hn]
    simp only [buildFrom] at hrt ⊢
    by_cases h1 : k = (reorderAxes a1 a2).1.name
    · rw [if_pos h1]
      exact ⟨_, rfl⟩
    · rw [if_neg h1] at hrt ⊢
      by_cases h2 : k = (reorderAxes a1 a2).2.1.name
      · rw [if_pos h2]
        exact ⟨_, rfl⟩
      · rw [if_neg h2] at hrt
        exact absurd hrt (by simp)

theorem to_rt_parent_indep (g : RTGeneric) (c3d : C3DData) (p q : Option RT)
    (h : ∃ rt, g.to_rt c3d p = .ok rt) : ∃ rt, g.to_rt c3d q = .ok rt := by
  obtain ⟨rt, hrt⟩ := h
  simp only [RTGeneric.to_rt] at hrt ⊢
  cases ho : g.origin.to_marker c3d none with
  | error e =>
    simp only [ho] at hrt
    exact absurd hrt (by simp)
  | ok o =>
    simp only [ho] at hrt ⊢
    cases h1 : g.ax1.to_axis c3d none with
    | error e =>
      simp only [h1] at hrt
      exact absurd hrt (by simp)
    | ok a1 =>
      simp only [h1] at hrt ⊢
      cases h2 : g.ax2.to_axis c3d none with
      | error e =>
        simp only [h2] at hrt
        exact absurd hrt (by simp)
      | ok a2 =>
        simp only [h2] at hrt ⊢
        exact from_markers_parent_indep o a1 a2 g.keep p q ⟨rt, hrt⟩

theorem bindMarkers_ok (c3d : C3DData) (p : Option RT) :
    ∀ ms : List MarkerGeneric,
    (∀ m ∈ ms, ∃ mk, m.to_marker c3d none = .ok mk) →
    ∃ l, bindMarkers c3d p ms = .ok l := by
  intro ms
  induction ms with
  | nil => exact fun _ => ⟨[], rfl⟩
  | cons m rest ih =>
    intro h
    obtain ⟨mk, hmk⟩ :=
      to_marker_parent_indep m c3d none p (h m (List.mem_cons_self m rest))
    obtain ⟨l, hl⟩ := ih (fun x hx => h x (List.mem_cons_of_mem _ hx))
    exact ⟨mk :: l, by simp [bindMarkers, hmk, hl]⟩

/-! ### Assembly: success order and fail-fast unknown parents -/

theorem generateGo_ok (c3d : C3DData) : ∀ (l : List SegmentGeneric)
    (acc : List Segment), BindsOk c3d l →
    ParentsOk (acc.map (fun seg => seg.name)) l →
    ∃ out, generateGo c3d l acc = .ok out ∧
      out.map (fun seg => seg.name) =
        acc.map (fun seg => seg.name) ++ l.map (fun s => s.name) := by
  intro l
  induction l with
  | nil => exact fun acc _ _ => ⟨acc, rfl, by simp⟩
  | cons s rest ih =>
    intro acc hb hp
    obtain ⟨hbrt, hbm, hbrest⟩ := hb
    obtain ⟨hpar, hprest⟩ := hp
    have hres : ∃ pseg, resolveParent acc s.parent_name = .ok pseg := by
      by_cases hemp : s.parent_name = ""
      · exact ⟨none, by simp [resolveParent, hemp]⟩
      · rcases hpar with h0 | hmem
        · exact absurd h0 hemp
        · have hfind : (acc.find? (fun seg => seg.name = s.parent_name)).isSome := by
            rw [List.find?_isSome]
            obtain ⟨seg, hseg, hname⟩ := List.mem_map.mp hmem
            exact ⟨seg, hseg, by simp [hname]⟩
          obtain ⟨pseg, hp'⟩ := Option.isSome_iff_exists.mp hfind
          exact ⟨some pseg, by simp [resolveParent, hemp, hp']⟩
    obtain ⟨pseg, hres⟩ := hres
    have hrt : ∃ rt, (match s.rt with
        | none => Except.ok (RT.mk 1 none false)
        | some r => r.to_rt c3d (pseg.bind (fun seg => seg.rt))) = .ok rt := by
      cases hsrt : s.rt with
      | none => exact ⟨_, rfl⟩
      | some r =>
        rw [hsrt] at hbrt
        exact to_rt_parent_indep r c3d none _ hbrt
    obtain ⟨rt, hrt⟩ := hrt
    obtain ⟨mks, hmks⟩ := bindMarkers_ok c3d (some rt) s.markers hbm
    have hstep : generateGo c3d (s :: rest) acc =
        generateGo c3d rest (acc ++ [Segment.mk s.name s.parent_name (some rt)
          s.translations s.rotations 0 (0, 0, 0) (0, 0, 0) mks]) := by
      rw [generateGo]
      simp only [hres, hrt, hmks]
    have hnames : (acc ++ [Segment.mk s.name s.parent_name (some rt)
        s.translations s.rotations 0 (0, 0, 0) (0, 0, 0) mks]).map
          (fun seg => seg.name) = acc.map (fun seg => seg.name) ++ [s.name] := by
      simp
    obtain ⟨out, ho, hn⟩ := ih (acc ++ [Segment.mk s.name s.parent_name (some rt)
      s.translations s.rotations 0 (0, 0, 0) (0, 0, 0) mks]) hbrest
      (by rw [hnames]; exact hprest)
    refine ⟨out, by rw [hstep]; exact ho, ?_⟩
    rw [hn, hnames]
    simp

theorem generateGo_err (c3d : C3DData) : ∀ (l : List SegmentGeneric)
    (acc : List Segment), BindsOk c3d l →
    ¬ ParentsOk (acc.map (fun seg => seg.name)) l →
    ∃ pname, generateGo c3d l acc = .error (.unknownParent pname) := by
  intro l
  induction l with
  | nil => exact fun acc _ hp => absurd trivial hp
  | cons s rest ih =>
    intro acc hb hp
    obtain ⟨hbrt, hbm, hbrest⟩ := hb
    by_cases hpar : s.parent_name = "" ∨ s.parent_name ∈ acc.map (fun seg => seg.name)
    · have hres : ∃ pseg, resolveParent acc s.parent_name = .ok pseg := by
        by_cases hemp : s.parent_name = ""
        · exact ⟨none, by simp [resolveParent, hemp]⟩
        · rcases hpar with h0 | hmem
          · exact absurd h0 hemp
          · have hfind : (acc.find? (fun seg => seg.name = s.parent_name)).isSome := by
              rw [List.find?_isSome]
              obtain ⟨seg, hseg, hname⟩ := List.mem_map.mp hmem
              exact ⟨seg, hseg, by simp [hname]⟩
            obtain ⟨pseg, hp'⟩ := Option.isSome_iff_exists.mp hfind
            exact ⟨some pseg, by simp [resolveParent, hemp, hp']⟩
      obtain ⟨pseg, hres⟩ := hres
      have hrt : ∃ rt, (match s.rt with
          | none => Except.ok (RT.mk 1 none false)
          | some r => r.to_rt c3d (pseg.bind (fun seg => seg.rt))) = .ok rt := by
        cases hsrt : s.rt with
        | none => exact ⟨_, rfl⟩
        | some r =>
          rw [hsrt] at hbrt
          exact to_rt_parent_indep r c3d none _ hbrt
      obtain ⟨rt, hrt⟩ := hrt
      obtain ⟨mks, hmks⟩ := bindMarkers_ok c3d (some rt) s.markers hbm
      have hstep : generateGo c3d (s :: rest) acc =
          generateGo c3d rest (acc ++ [Segment.mk s.name s.parent_name (some rt)
            s.translations s.rotations 0 (0, 0, 0) (0, 0, 0) mks]) := by
        rw [generateGo]
        simp only [hres, hrt, hmks]
      have hnames : (acc ++ [Segment.mk s.name s.parent_name (some rt)
          s.translations s.rotations 0 (0, 0, 0) (0, 0, 0) mks]).map
            (fun seg => seg.name) = acc.map (fun seg => seg.name) ++ [s.name] := by
        simp
      have hprest : ¬ ParentsOk (acc.map (fun seg => seg.name) ++ [s.name]) rest :=
        fun h => hp ⟨hpar, h⟩
      obtain ⟨pname, he⟩ := ih _ hbrest (by rw [hnames]; exact hprest)
      exact ⟨pname, by rw [hstep]; exact he⟩
    · push_neg at hpar
      obtain ⟨hemp, hmem⟩ := hpar
      have hfind : acc.find? (fun seg => seg.name = s.parent_name) = none := by
        rw [List.find?_eq_none]
        intro x hx
        simp only [decide_eq_true_eq]
        intro hxn
        exact hmem (List.mem_map.mpr ⟨x, hx, hxn⟩)
      refine ⟨s.parent_name, ?_⟩
      rw [generateGo]
      simp only [resolveParent, if_neg hemp, hfind]

/-- C3 (amended): provided every frame and marker recipe binds against
the trial, `generate_personalized` succeeds exactly when every non-empty
`parent_name` names an earlier-declared segment, and the resulting chain
lists its concrete segments in declaration order; when some parent is
not declared earlier, it fails with the unknown-parent error and no
chain is produced. -/
theorem c3_generate_order (model : KinematicModelGeneric) (c3d : C3DData)
    (hb : BindsOk c3d model.segments) :
    (ParentsOk [] model.segments →
      ∃ chain, generate_personalized model c3d = .ok chain ∧
        chain.segments.map (fun seg => seg.name) =
          model.segments.map (fun s => s.name)) ∧
    (¬ ParentsOk [] model.segments →
      ∃ pname, generate_personalized model c3d = .error (.unknownParent pname)) := by
  constructor
  · intro hp
    obtain ⟨out, ho, hn⟩ := generateGo_ok c3d model.segments [] hb hp
    refine ⟨⟨out⟩, ?_, by simpa using hn⟩
    simp [generate_personalized, ho, Except.map]
  · intro hp
    obtain ⟨pname, ho⟩ := generateGo_err c3d model.segments [] hb hp
    exact ⟨pname, by simp [generate_personalized, ho, Except.map]⟩

/-- C3 counterexample: a generic model whose every non-empty parent
name is declared earlier (here: the single segment has no parent) can
still fail to assemble, because a marker recipe is NaN across the whole
trial — refuting the claim that assembly succeeds for every generic
model with well-ordered parents. -/
theorem c3_counterexample :
    ParentsOk [] wModelBad.segments ∧
    generate_personalized wModelBad wBadC3D =
      .error (.missingMarkers ["M1"]) := by
  constructor
  · exact ⟨Or.inl rfl, trivial⟩
  · rfl

/-- C3 witness: a two-segment model (child after parent) with a binding
marker, assembled in declaration order. -/
theorem c3_generate_order_witness :
    BindsOk wC3D wModel.segments ∧ ParentsOk [] wModel.segments ∧
    (∃ chain, generate_personalized wModel wC3D = .ok chain ∧
      chain.segments.map (fun seg => seg.name) =
        wModel.segments.map (fun s => s.name)) := by
  have hb : BindsOk wC3D wModel.segments := by
    refine ⟨trivial, ?_, trivial, ?_, trivial⟩
    · intro m hm
      rw [show wSeg1.markers = [wMG] from rfl, List.mem_singleton] at hm
      subst hm
      exact ⟨_, rfl⟩
    · intro m hm
      rw [show wSeg2.markers = [] from rfl] at hm
      exact absurd hm (List.not_mem_nil m)
  have hp : ParentsOk [] wModel.segments :=
    ⟨Or.inl rfl, Or.inr (by decide), trivial⟩
  exact ⟨hb, hp, (c3_generate_order wModel wC3D hb).1 hp⟩

/-- C4: the file-write effect of `generate_personalized` happens only
after the whole chain has been assembled: a failing run writes nothing,
a successful run writes exactly the one finished chain to the save
path. -/
theorem c4_write_after_success (model : KinematicModelGeneric) (c3d : C3DData)
    (save_path : String) :
    (∀ e, generate_personalized model c3d = .error e →
      generateWrites model c3d save_path = []) ∧
    (∀ chain, generate_personalized model c3d = .ok chain →
      generateWrites model c3d save_path = [(save_path, chain)]) := by
  constructor <;> intro x hx <;> simp [generateWrites, hx]

/-- C4 witness: a run that fails on an all-NaN marker writes no file. -/
theorem c4_write_after_success_witness :
    generate_personalized wModelBad wBadC3D = .error (.missingMarkers ["M1"]) ∧
    generateWrites wModelBad wBadC3D "model.bioMod" = [] :=
  ⟨rfl, (c4_write_after_success wModelBad wBadC3D "model.bioMod").1 _ rfl⟩

/-- C9: for every sex, tabulated segment and total mass, `segment_mass`
is the table's mass fraction times the total mass (hence linear in the
total mass), and `segment_moment_of_inertia` is the 3-tuple
`(m*(L*r1)^2, m*(L*r2)^2, m*(L*r3)^2)` with L the Euclidean distance
between the rest-pose proximal and distal marker positions — stated via
`(L*r_i)^2 = r_i^2 * (squared distance)`, which exhibits the quadratic
scaling in the segment length. -/
theorem c9_deleva (d : DeLeva) (seg : DLSeg) (p q : V3)
    (hp : d.markerPosition (deLevaTable d.sex seg).marker_names.1 = some p)
    (hq : d.markerPosition (deLevaTable d.sex seg).marker_names.2 = some q) :
    d.segment_mass seg = (deLevaTable d.sex seg).mass * d.mass ∧
    (∀ c : ℝ, DeLeva.segment_mass
        ⟨d.sex, c * d.mass, d.marker_names, d.marker_positions⟩ seg =
      c * d.segment_mass seg) ∧
    d.segment_length seg = some (norm3 (fun i => q i - p i)) ∧
    d.segment_moment_of_inertia seg = some
      (d.segment_mass seg * (deLevaTable d.sex seg).radii.1 ^ 2 *
         dot3 (fun i => q i - p i) (fun i => q i - p i),
       d.segment_mass seg * (deLevaTable d.sex seg).radii.2.1 ^ 2 *
         dot3 (fun i => q i - p i) (fun i => q i - p i),
       d.segment_mass seg * (deLevaTable d.sex seg).radii.2.2 ^ 2 *
         dot3 (fun i => q i - p i) (fun i => q i - p i)) := by
  have hL : norm3 (fun i => q i - p i) ^ 2 =
      dot3 (fun i => q i - p i) (fun i => q i - p i) :=
    Real.sq_sqrt (dot3_self_nonneg _)
  refine ⟨rfl, fun c => by simp only [DeLeva.segment_mass]; ring, ?_, ?_⟩
  · simp [DeLeva.segment_length, hp, hq]
  · simp only [DeLeva.segment_moment_of_inertia, DeLeva.segment_length, hp, hq,
      Option.map_some]
    refine congrArg some ?_
    refine Prod.ext ?_ (Prod.ext ?_ ?_) <;>
      simp only [mul_pow] <;> rw [← hL] <;> ring

/-- C9 witness: the DeLeva theorem applied to the male HEAD row with a
70 kg subject and rest-pose markers (0,0,0) and (3,4,0). -/
theorem c9_deleva_witness :
    wDeLeva.markerPosition (deLevaTable wDeLeva.sex DLSeg.HEAD).marker_names.1 =
      some ![0, 0, 0] ∧
    wDeLeva.markerPosition (deLevaTable wDeLeva.sex DLSeg.HEAD).marker_names.2 =
      some ![3, 4, 0] ∧
    wDeLeva.segment_mass DLSeg.HEAD =
      (deLevaTable wDeLeva.sex DLSeg.HEAD).mass * wDeLeva.mass ∧
    wDeLeva.segment_length DLSeg.HEAD =
      some (norm3 (fun i => ![3, 4, 0] i - ![0, 0, 0] i)) := by
  have hp : wDeLeva.markerPosition
      (deLevaTable wDeLeva.sex DLSeg.HEAD).marker_names.1 = some ![0, 0, 0] := rfl
  have hq : wDeLeva.markerPosition
      (deLevaTable wDeLeva.sex DLSeg.HEAD).marker_names.2 = some ![3, 4, 0] := rfl
  have h := c9_deleva wDeLeva DLSeg.HEAD ![0, 0, 0] ![3, 4, 0] hp hq
  exact ⟨hp, hq, h.1, h.2.2.1⟩

/-- C10: for every RT, both `copy()` and `transpose` return an object
whose `is_rt_local` flag is `False` regardless of the original's flag;
`copy` passes along only the matrix and the parent reference. -/
theorem c10_copy_transpose_nonlocal (r : RT) :
    r.copy.is_rt_local = false ∧ r.transpose.is_rt_local = false ∧
    r.copy.rt = r.rt ∧ r.copy.parent_rt = r.parent_rt ∧
    r.transpose.parent_rt = r.parent_rt :=
  ⟨rfl, rfl, rfl, rfl, rfl⟩

/-- C1 (amended): serialization of a local SCS uses the stored transform
as-is; a non-local SCS with a parent is rendered as
`parent.transpose @ transform`; a non-local SCS without a parent is
rendered as the identity matrix (the stored transform is discarded, it
is not rendered unchanged). -/
theorem c1_renderMatrix_cases (r : RT) :
    (r.is_rt_local = true → r.renderMatrix = r.rt) ∧
    (r.is_rt_local = false → ∀ p, r.parent_rt = some p →
      r.renderMatrix = transposeM p.rt * r.rt) ∧
    (r.is_rt_local = false → r.parent_rt = none → r.renderMatrix = 1) := by
  refine ⟨fun h => ?_, fun h p hp => ?_, fun h hp => ?_⟩
  · simp [RT.renderMatrix, h]
  · simp [RT.renderMatrix, h, hp]
  · simp [RT.renderMatrix, h, hp]

/-- C1 witness: the three branches evaluated on concrete transforms. -/
theorem c1_renderMatrix_cases_witness :
    RT.renderMatrix (RT.mk !![1, 0, 0, 5; 0, 1, 0, 0; 0, 0, 1, 0; 0, 0, 0, 1] none false) = 1 :=
  (c1_renderMatrix_cases _).2.2 rfl rfl

/-- C1 counterexample: a parentless, non-local RT whose matrix is a
translation by 5 along x is rendered as the identity, not as its own
transform matrix, refuting the claim that the absent parent's inverse is
replaced by the identity factor. -/
theorem c1_no_parent_counterexample :
    RT.renderMatrix (RT.mk !![1, 0, 0, 5; 0, 1, 0, 0; 0, 0, 1, 0; 0, 0, 0, 1] none false) ≠
      RT.rt (RT.mk !![1, 0, 0, 5; 0, 1, 0, 0; 0, 0, 1, 0; 0, 0, 0, 1] none false) := by
  intro h
  have h2 := congrFun (congrFun h 0) 3
  simp [RT.renderMatrix, RT.rt, RT.is_rt_local, RT.parent_rt, Matrix.one_apply] at h2

/-- Row `i` of `A^T v` over `Fin 3`, written out. -/
theorem transpose_mulVec3 (A : Matrix (Fin 3) (Fin 3) ℝ) (v : Fin 3 → ℝ)
    (i : Fin 3) : Aᵀ.mulVec v i = A 0 i * v 0 + A 1 i * v 1 + A 2 i * v 2 := by
  simp [Matrix.mulVec, dotProduct, Fin.sum_univ_three, Matrix.transpose_apply]

/-- C7: on a rigid transform whose rotation block is orthonormal and
whose bottom row is (0,0,0,1), `transpose` produces the rotation block
`R^T` and the translation `-R^T t`, and applying it twice gives back the
original matrix. -/
theorem c7_transpose_inverts (r : RT)
    (h1 : (rotBlock r.rt)ᵀ * rotBlock r.rt = 1)
    (h2 : r.rt 3 0 = 0) (h3 : r.rt 3 1 = 0) (h4 : r.rt 3 2 = 0)
    (h5 : r.rt 3 3 = 1) :
    rotBlock r.transpose.rt = (rotBlock r.rt)ᵀ ∧
    transBlock r.transpose.rt = -(rotBlock r.rt)ᵀ.mulVec (transBlock r.rt) ∧
    r.transpose.transpose.rt = r.rt := by
  have hc : rotBlock r.rt * (rotBlock r.rt)ᵀ = 1 := Matrix.mul_eq_one_comm.mp h1
  have E00 : r.rt 0 0 * r.rt 0 0 + r.rt 0 1 * r.rt 0 1 + r.rt 0 2 * r.rt 0 2 = 1 := by
    have h := congrFun (congrFun hc 0) 0
    simpa [rotBlock, Matrix.mul_apply, Fin.sum_univ_three, Matrix.one_apply] using h
  have E01 : r.rt 0 0 * r.rt 1 0 + r.rt 0 1 * r.rt 1 1 + r.rt 0 2 * r.rt 1 2 = 0 := by
    have h := congrFun (congrFun hc 0) 1
    simpa [rotBlock, Matrix.mul_apply, Fin.sum_univ_three, Matrix.one_apply] using h
  have E02 : r.rt 0 0 * r.rt 2 0 + r.rt 0 1 * r.rt 2 1 + r.rt 0 2 * r.rt 2 2 = 0 := by
    have h := congrFun (congrFun hc 0) 2
    simpa [rotBlock, Matrix.mul_apply, Fin.sum_univ_three, Matrix.one_apply] using h
  have E10 : r.rt 1 0 * r.rt 0 0 + r.rt 1 1 * r.rt 0 1 + r.rt 1 2 * r.rt 0 2 = 0 := by
    have h := congrFun (congrFun hc 1) 0
    simpa [rotBlock, Matrix.mul_apply, Fin.sum_univ_three, Matrix.one_apply] using h
  have E11 : r.rt 1 0 * r.rt 1 0 + r.rt 1 1 * r.rt 1 1 + r.rt 1 2 * r.rt 1 2 = 1 := by
    have h := congrFun (congrFun hc 1) 1
    simpa [rotBlock, Matrix.mul_apply, Fin.sum_univ_three, Matrix.one_apply] using h
  have E12 : r.rt 1 0 * r.rt 2 0 + r.rt 1 1 * r.rt 2 1 + r.rt 1 2 * r.rt 2 2 = 0 := by
    have h := congrFun (congrFun hc 1) 2
    simpa [rotBlock, Matrix.mul_apply, Fin.sum_univ_three, Matrix.one_apply] using h
  have E20 : r.rt 2 0 * r.rt 0 0 + r.rt 2 1 * r.rt 0 1 + r.rt 2 2 * r.rt 0 2 = 0 := by
    have h := congrFun (congrFun hc 2) 0
    simpa [rotBlock, Matrix.mul_apply, Fin.sum_univ_three, Matrix.one_apply] using h
  have E21 : r.rt 2 0 * r.rt 1 0 + r.rt 2 1 * r.rt 1 1 + r.rt 2 2 * r.rt 1 2 = 0 := by
    have h := congrFun (congrFun hc 2) 1
    simpa [rotBlock, Matrix.mul_apply, Fin.sum_univ_three, Matrix.one_apply] using h
  have E22 : r.rt 2 0 * r.rt 2 0 + r.rt 2 1 * r.rt 2 1 + r.rt 2 2 * r.rt 2 2 = 1 := by
    have h := congrFun (congrFun hc 2) 2
    simpa [rotBlock, Matrix.mul_apply, Fin.sum_univ_three, Matrix.one_apply] using h
  refine ⟨?_, ?_, ?_⟩
  · ext i j
    fin_cases i <;> fin_cases j <;>
      simp [rotBlock, transposeM, RT.transpose, Matrix.transpose_apply]
  · funext i
    rw [Pi.neg_apply, transpose_mulVec3]
    fin_cases i <;>
      simp [transBlock, RT.transpose, transposeM, rotBlock]
  · ext i j
    fin_cases i <;> fin_cases j <;>
      simp [transposeM, RT.transpose, h2, h3, h4, h5]
    · linear_combination E00 * r.rt 0 3 + E01 * r.rt 1 3 + E02 * r.rt 2 3
    · linear_combination E10 * r.rt 0 3 + E11 * r.rt 1 3 + E12 * r.rt 2 3
    · linear_combination E20 * r.rt 0 3 + E21 * r.rt 1 3 + E22 * r.rt 2 3

/-- C7 witness: the hypotheses and the round-trip conclusion checked on
a concrete rigid transform (rotation by the 3-4-5 angle about z,
translation (1,2,3)). -/
theorem c7_transpose_inverts_witness :
    ((rotBlock (RT.mk !![3/5, -4/5, 0, 1; 4/5, 3/5, 0, 2; 0, 0, 1, 3; 0, 0, 0, 1] none false).rt)ᵀ *
        rotBlock (RT.mk !![3/5, -4/5, 0, 1; 4/5, 3/5, 0, 2; 0, 0, 1, 3; 0, 0, 0, 1] none false).rt = 1) ∧
    (RT.mk !![3/5, -4/5, 0, 1; 4/5, 3/5, 0, 2; 0, 0, 1, 3; 0, 0, 0, 1] none false).transpose.transpose.rt =
      (RT.mk !![3/5, -4/5, 0, 1; 4/5, 3/5, 0, 2; 0, 0, 1, 3; 0, 0, 0, 1] none false).rt := by
  have h1 : (rotBlock (RT.mk !![3/5, -4/5, 0, 1; 4/5, 3/5, 0, 2; 0, 0, 1, 3; 0, 0, 0, 1] none false).rt)ᵀ *
      rotBlock (RT.mk !![3/5, -4/5, 0, 1; 4/5, 3/5, 0, 2; 0, 0, 1, 3; 0, 0, 0, 1] none false).rt = 1 := by
    ext i j
    rw [Matrix.mul_apply]
    simp only [Matrix.transpose_apply]
    fin_cases i <;> fin_cases j <;>
      simp [rotBlock, Fin.sum_univ_three, Matrix.one_apply] <;>
      norm_num
  exact ⟨h1, (c7_transpose_inverts _ h1 rfl rfl rfl rfl).2.2⟩

end

end Biorbd
